import Mathlib

/-!
Shallow embedding of the layout-reconstruction engine of this repository:
the percentage-geometry chunk pipeline of
`client/src/components/pdf-processor.tsx`, the coordinate transforms of the
shared types module, and the enhanced OCR pipeline (word/line/block
clustering, semantic regions, chunk projection) of `EnhancedPDFProcessor`.
JavaScript numbers are modelled as rationals, strings as Lean strings,
and fallible code as `Option`/`Except`.
-/

/-- Percentage-unit geometry record `{x, y, w, h}` of the legacy chunk shape. -/
structure Geometry where
  x : ℚ
  y : ℚ
  w : ℚ
  h : ℚ
deriving DecidableEq, Repr

/-- The flat chunk shape `{id, text, pageNumber, geometry}` shared by
`pdf-processor.tsx`'s `TextChunk` and the types module's `LegacyTextChunk`. -/
structure LegacyTextChunk where
  id : String
  text : String
  pageNumber : ℤ
  geometry : Geometry
deriving DecidableEq, Repr

/-- Normalized `[0,1]` bounding box `{x, y, width, height}` (top-left origin). -/
structure BoundingBox where
  x : ℚ
  y : ℚ
  width : ℚ
  height : ℚ
deriving DecidableEq, Repr

/-- Landing-AI style grounding box `{l, t, r, b}` in normalized coordinates. -/
structure GroundingBox where
  l : ℚ
  t : ℚ
  r : ℚ
  b : ℚ
deriving DecidableEq, Repr

/-- A grounding: 0-based page index plus a grounding box. -/
structure Grounding where
  page : ℤ
  box : GroundingBox
deriving DecidableEq, Repr

/-- Grounded text chunk of the types module (`textChunkSchema`).
`chunk_type` is kept as its literal enum string. -/
structure TextChunk where
  text : String
  chunk_id : String
  chunk_type : String
  grounding : List Grounding
  confidence : ℚ
  semantic_role : Option String
deriving DecidableEq, Repr

/-- OCR word with normalized bbox and `[0,1]` confidence (`wordSchema`). -/
structure Word where
  text : String
  bbox : BoundingBox
  confidence : ℚ
  fontFamily : String
  fontSize : ℚ
deriving DecidableEq, Repr

/-- A clustered line of words (`lineSchema`). -/
structure Line where
  id : String
  words : List Word
  bbox : BoundingBox
  readingOrder : ℕ
  alignment : String
deriving DecidableEq, Repr

/-- A clustered block of lines (`blockSchema`); `type` is its enum string. -/
structure Block where
  id : String
  type : String
  bbox : BoundingBox
  lines : List Line
  confidence : ℚ
  readingOrder : ℕ
  semanticRole : Option String
deriving DecidableEq, Repr

/-- Page-level semantic region (`semanticRegions` entry of `pageSchema`). -/
structure SemanticRegion where
  id : String
  type : String
  bbox : BoundingBox
  confidence : ℚ
  blockIds : List String
deriving DecidableEq, Repr

/-- Per-page coverage record of `pageSchema`. -/
structure Coverage where
  pdfNativeWords : ℕ
  ocrWords : ℕ
  reconciledWords : ℕ
  coveragePercent : ℚ
deriving DecidableEq, Repr

/-- Intermediate-representation page (`pageSchema`, imported as `IRPage`). -/
structure IRPage where
  pageNumber : ℤ
  width : ℚ
  height : ℚ
  words : List Word
  lines : List Line
  blocks : List Block
  coverage : Coverage
  semanticRegions : List SemanticRegion
deriving DecidableEq, Repr

/-- Pixel-space OCR bounding box `{x0, y0, x1, y1}` as returned by the OCR
collaborator. -/
structure OCRBBox where
  x0 : ℚ
  y0 : ℚ
  x1 : ℚ
  y1 : ℚ
deriving DecidableEq, Repr

/-- One OCR word or line item: text, confidence on the engine's 0-100 scale,
and an optional pixel bbox (`none` models a missing/undefined bbox). -/
structure OCRItem where
  text : String
  confidence : ℚ
  bbox : Option OCRBBox
deriving DecidableEq, Repr

/-- The OCR collaborator's recognition payload: whole-page text plus optional
word-level and line-level items (absent arrays are modelled as `[]`). -/
structure OCRData where
  text : String
  words : List OCRItem
  lines : List OCRItem
deriving DecidableEq, Repr

/-! ## Text utilities

`pdf-processor.tsx` cleans merged text with
`chunk.text.replace(/\s+/g, ' ').trim()` and tests emptiness with
`chunk.text.trim().length > 0`. -/

/-- `replace(/\s+/g, ' ')`: every maximal whitespace run becomes one space. -/
def collapseWs : List Char → List Char
  | [] => []
  | [a] => if a.isWhitespace then [' '] else [a]
  | a :: b :: rest =>
    if a.isWhitespace && b.isWhitespace then collapseWs (b :: rest)
    else (if a.isWhitespace then ' ' else a) :: collapseWs (b :: rest)

/-- JavaScript `String.prototype.trim`: strip whitespace from both ends. -/
def trimChars (s : List Char) : List Char :=
  ((s.dropWhile Char.isWhitespace).reverse.dropWhile Char.isWhitespace).reverse

/-- `text.replace(/\s+/g, ' ').trim()` on a whole string. -/
def cleanString (s : String) : String :=
  String.mk (trimChars (collapseWs s.data))

/-- JavaScript `Math.abs` on rationals. -/
def qabs (q : ℚ) : ℚ := if q < 0 then -q else q

/-- Membership test of the regex class `[^\w\s.,!?;:()-]` used by
`shouldUseOCR`'s `hasSpecialChars` probe. -/
def isSpecialChar (c : Char) : Bool :=
  !(c.isAlphanum || c == '_' || c.isWhitespace || c == '.' || c == ',' ||
    c == '!' || c == '?' || c == ';' || c == ':' || c == '(' || c == ')' || c == '-')

/-! ## Generic helpers for the imperative loops

`Array.prototype.sort(cmp)` (modern engines: stable) is modelled as a stable
insertion sort driven by the numeric comparator.  The two clustering loops
("append to the open run, or close it and start a new one") are modelled by
`splitRuns`, which breaks a list after every element `prev` such that
`brk prev next` holds for its successor `next`. -/

/-- Insert `a` after every element the comparator places at or before it. -/
def insertCmp (cmp : α → α → ℚ) (a : α) : List α → List α
  | [] => [a]
  | b :: bs => if cmp b a ≤ 0 then b :: insertCmp cmp a bs else a :: b :: bs

/-- Stable sort by a JavaScript-style numeric comparator. -/
def sortByCmp (cmp : α → α → ℚ) (l : List α) : List α :=
  l.foldl (fun acc a => insertCmp cmp a acc) []

/-- Tail worker for `splitRuns`: returns the run continuing `prev`, plus the
fully formed later runs. -/
def splitRunsAux (brk : α → α → Bool) : α → List α → List α × List (List α)
  | _, [] => ([], [])
  | prev, x :: xs =>
    let r := splitRunsAux brk x xs
    if brk prev x then ([], (x :: r.1) :: r.2) else (x :: r.1, r.2)

/-- Split a list into maximal runs, breaking between `prev` and `next`
exactly when `brk prev next` is true. -/
def splitRuns (brk : α → α → Bool) : List α → List (List α)
  | [] => []
  | x :: xs => (x :: (splitRunsAux brk x xs).1) :: (splitRunsAux brk x xs).2

/-! ## pdf-processor.tsx: channel arbitration -/

/-- Average `text.length` of a chunk list (rational division, as in JS). -/
def avgTextLength (chunks : List LegacyTextChunk) : ℚ :=
  (chunks.map fun chunk => (chunk.text.length : ℚ)).sum / (chunks.length : ℚ)

/-- `shouldUseOCR`: OCR-trigger heuristic over the PDF.js chunks. -/
def shouldUseOCR (pdfChunks : List LegacyTextChunk) : Bool :=
  if pdfChunks.length = 0 then true
  else
    let hasLongWords := pdfChunks.any fun chunk => decide (20 < chunk.text.length)
    let hasSpecialChars := pdfChunks.any fun chunk => chunk.text.data.any isSpecialChar
    decide (avgTextLength pdfChunks < 3) ||
      (!hasLongWords && decide (50 < pdfChunks.length)) || hasSpecialChars

/-- `hasHigherQuality`: OCR beats PDF.js when its average text length exceeds
1.2x the PDF.js average, or its chunk count exceeds 1.5x the PDF.js count. -/
def hasHigherQuality (ocrChunks pdfChunks : List LegacyTextChunk) : Bool :=
  if ocrChunks.length = 0 then false
  else if pdfChunks.length = 0 then true
  else
    decide (avgTextLength ocrChunks > avgTextLength pdfChunks * (12/10) ∨
      (ocrChunks.length : ℚ) > (pdfChunks.length : ℚ) * (15/10))

/-- The inline selection test of `onPageLoadSuccess`, line 129:
`ocrChunks.length > pdfTextChunks.length || hasHigherQuality(ocrChunks, pdfTextChunks)`. -/
def usesOCRResults (ocrChunks pdfTextChunks : List LegacyTextChunk) : Bool :=
  decide (pdfTextChunks.length < ocrChunks.length) || hasHigherQuality ocrChunks pdfTextChunks

/-! ## pdf-processor.tsx: line clustering (`groupNearbyTextChunks`) -/

/-- The position comparator of `groupNearbyTextChunks`' sort: by `y`, with
ties (`|dy| < 0.8`) broken by `x`. -/
def chunkCmp (a b : LegacyTextChunk) : ℚ :=
  if qabs (a.geometry.y - b.geometry.y) < 8/10 then a.geometry.x - b.geometry.x
  else a.geometry.y - b.geometry.y

/-- The merge guard of `groupNearbyTextChunks`: same line, close
horizontally, not too far, same font size, reasonable text lengths. -/
def shouldMerge (lastGroup chunk : LegacyTextChunk) : Bool :=
  let verticalDistance := qabs (chunk.geometry.y - lastGroup.geometry.y)
  let horizontalDistance := chunk.geometry.x - (lastGroup.geometry.x + lastGroup.geometry.w)
  decide (verticalDistance < 12/10) &&
    decide (0 ≤ horizontalDistance ∧ horizontalDistance < 3) &&
    decide (horizontalDistance < 15) &&
    decide (qabs (chunk.geometry.h - lastGroup.geometry.h) < 1/2) &&
    decide (chunk.text.length < 50 ∧ lastGroup.text.length < 200)

/-- The in-place merge of `chunk` into `lastGroup`, replaying the source's
mutation order (`h` is first set to the max height, and that updated `h` is
then used to recompute the union height). -/
def mergeChunks (lastGroup chunk : LegacyTextChunk) : LegacyTextChunk :=
  let horizontalDistance := chunk.geometry.x - (lastGroup.geometry.x + lastGroup.geometry.w)
  let separator := if horizontalDistance > 1 then " " else ""
  let text := lastGroup.text ++ separator ++ chunk.text
  let w := chunk.geometry.x + chunk.geometry.w - lastGroup.geometry.x
  let h1 := max lastGroup.geometry.h chunk.geometry.h
  let minY := min lastGroup.geometry.y chunk.geometry.y
  let maxH := max (lastGroup.geometry.y + h1) (chunk.geometry.y + chunk.geometry.h) - minY
  { lastGroup with
      text := text
      geometry := { x := lastGroup.geometry.x, y := minY, w := w, h := maxH } }

/-- One step of the grouping pass; the accumulator holds the groups in
reverse so the open group is at its head. -/
def groupStep (acc : List LegacyTextChunk) (chunk : LegacyTextChunk) : List LegacyTextChunk :=
  match acc with
  | [] => [chunk]
  | lastGroup :: rest =>
    if shouldMerge lastGroup chunk then mergeChunks lastGroup chunk :: rest
    else chunk :: lastGroup :: rest

/-- The final filter of `groupNearbyTextChunks`: valid size, non-empty
trimmed text, under 500 characters. -/
def keepGroupedChunk (chunk : LegacyTextChunk) : Bool :=
  decide (chunk.geometry.w > 1/10 ∧ chunk.geometry.h > 1/10) &&
    decide ((trimChars chunk.text.data).length > 0) &&
    decide (chunk.text.length < 500)

/-- `groupNearbyTextChunks`: sort by position, merge nearby chunks into
lines, then drop invalid results and normalize whitespace. -/
def groupNearbyTextChunks (chunks : List LegacyTextChunk) : List LegacyTextChunk :=
  match chunks with
  | [] => []
  | _ :: _ =>
    let sortedChunks := sortByCmp chunkCmp chunks
    let grouped := (sortedChunks.foldl groupStep []).reverse
    (grouped.filter keepGroupedChunk).map fun chunk =>
      { chunk with text := cleanString chunk.text }

/-! ## pdf-processor.tsx: per-page channel selection

`onPageLoadSuccess` keeps the PDF.js chunks, optionally calls OCR, picks the
winner, groups it, and never lets an OCR failure escape its `try`.  The OCR
outcome is made explicit: `none` models a thrown OCR error (the `catch`
path), `some chunks` a returned chunk list (`performOCR` maps an internal
engine error to `[]`). -/

/-- The chunk-selection and grouping core of `onPageLoadSuccess`, with the
OCR failure handling of its `try`/`catch` made explicit.  The surrounding
page handler reports errors through `Except.error`; the OCR fallback path
never does. -/
def processPageChunks (pdfTextChunks : List LegacyTextChunk)
    (ocrOutcome : Option (List LegacyTextChunk)) : Except String (List LegacyTextChunk) :=
  let finalTextChunks :=
    if pdfTextChunks.length < 10 || shouldUseOCR pdfTextChunks then
      match ocrOutcome with
      | some ocrChunks =>
        if usesOCRResults ocrChunks pdfTextChunks then ocrChunks else pdfTextChunks
      | none => pdfTextChunks
    else pdfTextChunks
  Except.ok (groupNearbyTextChunks finalTextChunks)

/-! ## pdf-processor.tsx: `performOCR` granularity handling

The pure core of `performOCR`: given the rendered image dimensions, the page
number and the recognized data, build the chunk list.  Word-level items are
tried first, then line-level items, then a single whole-page chunk. -/

/-- Pixel bbox to percentage geometry, as done inside `performOCR`. -/
def ocrGeometry (imgW imgH : ℚ) (b : OCRBBox) : Geometry :=
  { x := b.x0 / imgW * 100
    y := b.y0 / imgH * 100
    w := (b.x1 - b.x0) / imgW * 100
    h := (b.y1 - b.y0) / imgH * 100 }

/-- The geometry sanity filter applied to every OCR item:
`x >= 0 && y >= 0 && w > 0 && h > 0 && x < 100 && y < 100 && x+w <= 100 && y+h <= 100`. -/
def geometryOk (g : Geometry) : Bool :=
  decide (0 ≤ g.x ∧ 0 ≤ g.y ∧ 0 < g.w ∧ 0 < g.h ∧
    g.x < 100 ∧ g.y < 100 ∧ g.x + g.w ≤ 100 ∧ g.y + g.h ≤ 100)

/-- The per-item acceptance filter of `performOCR` (word and line passes):
non-empty trimmed text, confidence above 30, a bbox, and sane geometry.
Returns the converted geometry when the item is accepted. -/
def acceptOCRItem (imgW imgH : ℚ) (it : OCRItem) : Option Geometry :=
  match it.bbox with
  | none => none
  | some b =>
    if (trimChars it.text.data).length > 0 ∧ it.confidence > 30 then
      let g := ocrGeometry imgW imgH b
      if geometryOk g then some g else none
    else none

/-- Word-level chunks of `performOCR`; ids are `page-N-ocr-I` with `I` the
running index of accepted words. -/
def ocrWordChunks (imgW imgH : ℚ) (pageNum : ℤ) (words : List OCRItem) : List LegacyTextChunk :=
  (words.filterMap fun it => (acceptOCRItem imgW imgH it).map fun g => (it, g)).mapIdx
    fun i p =>
      { id := "page-" ++ toString pageNum ++ "-ocr-" ++ toString i
        text := String.mk (trimChars p.1.text.data)
        pageNumber := pageNum
        geometry := p.2 }

/-- Line-level chunks of `performOCR`; ids are `page-N-ocr-line-I`. -/
def ocrLineChunks (imgW imgH : ℚ) (pageNum : ℤ) (lines : List OCRItem) : List LegacyTextChunk :=
  (lines.filterMap fun it => (acceptOCRItem imgW imgH it).map fun g => (it, g)).mapIdx
    fun i p =>
      { id := "page-" ++ toString pageNum ++ "-ocr-line-" ++ toString i
        text := String.mk (trimChars p.1.text.data)
        pageNumber := pageNum
        geometry := p.2 }

/-- The whole-page fallback chunk of `performOCR`. -/
def ocrFullPageChunk (pageNum : ℤ) (pageText : String) : LegacyTextChunk :=
  { id := "page-" ++ toString pageNum ++ "-ocr-full"
    text := String.mk (trimChars pageText.data)
    pageNumber := pageNum
    geometry := { x := 5, y := 5, w := 90, h := 90 } }

/-- The granularity cascade of `performOCR`: everything is guarded by the
whole-page text being non-empty; words first, lines only when no word chunk
was produced, one whole-page chunk only when both passes produced nothing. -/
def performOCRChunks (imgW imgH : ℚ) (pageNum : ℤ) (data : OCRData) : List LegacyTextChunk :=
  if (trimChars data.text.data).length > 0 then
    let wordChunks := ocrWordChunks imgW imgH pageNum data.words
    if wordChunks.length = 0 then
      let lineChunks := ocrLineChunks imgW imgH pageNum data.lines
      if lineChunks.length = 0 then
        if (trimChars data.text.data).length > 0 then [ocrFullPageChunk pageNum data.text]
        else []
      else lineChunks
    else wordChunks
  else []

/-! ## Types module: coordinate transforms -/

/-- `transformLegacyToGrounding`: percentage/pixel legacy geometry to a
normalized grounding chunk (fixed type `text`, fixed confidence 0.8). -/
def transformLegacyToGrounding (legacyChunk : LegacyTextChunk)
    (pageWidth pageHeight : ℚ) : TextChunk :=
  { chunk_id := legacyChunk.id
    text := legacyChunk.text
    chunk_type := "text"
    grounding := [{ page := legacyChunk.pageNumber - 1
                    box := { l := legacyChunk.geometry.x / pageWidth
                             t := legacyChunk.geometry.y / pageHeight
                             r := (legacyChunk.geometry.x + legacyChunk.geometry.w) / pageWidth
                             b := (legacyChunk.geometry.y + legacyChunk.geometry.h) / pageHeight } }]
    confidence := 8/10
    semantic_role := none }

/-- `transformGroundingToLegacy`: reads `grounding[0]` and scales it back to
legacy geometry.  The source crashes on an empty grounding array
(`grounding[0]` is `undefined`); that partiality is modelled by `Option`. -/
def transformGroundingToLegacy (textChunk : TextChunk)
    (pageWidth pageHeight : ℚ) : Option LegacyTextChunk :=
  match textChunk.grounding.head? with
  | none => none
  | some grounding =>
    some { id := textChunk.chunk_id
           text := textChunk.text
           pageNumber := grounding.page + 1
           geometry := { x := grounding.box.l * pageWidth
                         y := grounding.box.t * pageHeight
                         w := (grounding.box.r - grounding.box.l) * pageWidth
                         h := (grounding.box.b - grounding.box.t) * pageHeight } }

/-! ## EnhancedPDFProcessor: word/line/block clustering and projection -/

/-- The word sort of `groupWordsIntoLines`: by `y`, ties (`|dy| < 0.01`)
broken by `x`. -/
def wordCmp (a b : Word) : ℚ :=
  if qabs (a.bbox.y - b.bbox.y) < 1/100 then a.bbox.x - b.bbox.x else a.bbox.y - b.bbox.y

/-- `groupWordsIntoLines`: sort, then close the current line whenever the
next word's `y` differs from the previous word's `y` by at least 0.02. -/
def groupWordsIntoLines (words : List Word) : List (List Word) :=
  splitRuns (fun prev cur => !decide (qabs (cur.bbox.y - prev.bbox.y) < 2/100))
    (sortByCmp wordCmp words)

/-- Vertical gap from the bottom of `prev` to the top of `cur`, as computed
by `groupLinesIntoBlocks`. -/
def lineGap (prev cur : Line) : ℚ :=
  cur.bbox.y - (prev.bbox.y + prev.bbox.height)

/-- `groupLinesIntoBlocks`: close the open block whenever the vertical gap
to the next line exceeds 0.03. -/
def groupLinesIntoBlocks (lines : List Line) : List (List Line) :=
  splitRuns (fun prev cur => decide (lineGap prev cur > 3/100)) lines

/-- `calculateBoundingBox`: the union box of a bbox list (zero box for an
empty input). -/
def calculateBoundingBox (bboxes : List BoundingBox) : BoundingBox :=
  match bboxes with
  | [] => { x := 0, y := 0, width := 0, height := 0 }
  | b :: bs =>
    let minX := (bs.map fun v => v.x).foldl min b.x
    let minY := (bs.map fun v => v.y).foldl min b.y
    let maxX := (bs.map fun v => v.x + v.width).foldl max (b.x + b.width)
    let maxY := (bs.map fun v => v.y + v.height).foldl max (b.y + b.height)
    { x := minX, y := minY, width := maxX - minX, height := maxY - minY }

/-- Mean confidence of a line's words, as summed by the block builder. -/
def lineMeanConfidence (l : Line) : ℚ :=
  (l.words.map fun w => w.confidence).sum / (l.words.length : ℚ)

/-- Block confidence: mean of the member lines' mean word confidences. -/
def blockConfidence (blockLines : List Line) : ℚ :=
  (blockLines.map lineMeanConfidence).sum / (blockLines.length : ℚ)

/-- The `Line` records built from the grouped word runs (ids `line-I` by
group index; empty groups are skipped, as in the source's length guard). -/
def linesOfGroups (groups : List (List Word)) : List Line :=
  groups.enum.filterMap fun p =>
    match p.2 with
    | [] => none
    | _ :: _ =>
      some { id := "line-" ++ toString p.1
             words := p.2
             bbox := calculateBoundingBox (p.2.map fun w => w.bbox)
             readingOrder := p.1
             alignment := "left" }

/-- The `Block` records built from the grouped line runs (ids `block-I` by
group index, type `paragraph`). -/
def blocksOfGroups (groups : List (List Line)) : List Block :=
  groups.enum.filterMap fun p =>
    match p.2 with
    | [] => none
    | _ :: _ =>
      some { id := "block-" ++ toString p.1
             type := "paragraph"
             bbox := calculateBoundingBox (p.2.map fun l => l.bbox)
             lines := p.2
             confidence := blockConfidence p.2
             readingOrder := p.1
             semanticRole := none }

/-- The sort of `generateSemanticRegions`: blocks by their top `y`. -/
def sortBlocksByY (blocks : List Block) : List Block :=
  sortByCmp (fun a b => a.bbox.y - b.bbox.y) blocks

/-- The header region pushed for a top block inside the top 20%. -/
def headerRegionOf (topBlock : Block) : SemanticRegion :=
  { id := "semantic-header-0", type := "header", bbox := topBlock.bbox
    confidence := 7/10, blockIds := [topBlock.id] }

/-- The footer region pushed for a bottom block ending beyond 80%. -/
def footerRegionOf (bottomBlock : Block) : SemanticRegion :=
  { id := "semantic-footer-0", type := "footer", bbox := bottomBlock.bbox
    confidence := 7/10, blockIds := [bottomBlock.id] }

/-- The strict-interior test selecting main-content blocks. -/
def isMainBlock (b : Block) : Bool :=
  decide (b.bbox.y > 1/5 ∧ b.bbox.y + b.bbox.height < 4/5)

/-- The main-content region aggregating the given blocks. -/
def mainRegionOf (mainBlocks : List Block) : SemanticRegion :=
  { id := "semantic-main-0", type := "main_content"
    bbox := calculateBoundingBox (mainBlocks.map fun b => b.bbox)
    confidence := 8/10, blockIds := mainBlocks.map fun b => b.id }

/-- `generateSemanticRegions`: position heuristics producing at most one
header, one footer and one main-content region. -/
def generateSemanticRegions (blocks : List Block) : List SemanticRegion :=
  match sortBlocksByY blocks with
  | [] => []
  | topBlock :: rest =>
    let bottomBlock := rest.getLastD topBlock
    let headerRegions := if topBlock.bbox.y < 1/5 then [headerRegionOf topBlock] else []
    let footerRegions :=
      if bottomBlock.bbox.y + bottomBlock.bbox.height > 4/5 then [footerRegionOf bottomBlock] else []
    let mainBlocks := (topBlock :: rest).filter isMainBlock
    let mainRegions := if mainBlocks.length > 0 then [mainRegionOf mainBlocks] else []
    headerRegions ++ footerRegions ++ mainRegions

/-- The IR-page construction of `performEnhancedOCR` (its pure core): filter
the OCR words, normalize their boxes, cluster into lines and blocks, and
attach coverage and semantic regions.  The legacy-chunk side list (random
`nanoid()` ids, unused by the claims) is omitted. -/
def performEnhancedOCRPage (canvasW canvasH : ℚ) (pageNumber : ℤ)
    (ocrWords : List OCRItem) : IRPage :=
  let words : List Word := ocrWords.filterMap fun it =>
    match it.bbox with
    | none => none
    | some b =>
      if (trimChars it.text.data).length > 0 then
        some { text := it.text
               bbox := { x := b.x0 / canvasW, y := b.y0 / canvasH
                         width := (b.x1 - b.x0) / canvasW, height := (b.y1 - b.y0) / canvasH }
               confidence := it.confidence / 100
               fontFamily := "Arial"
               fontSize := 12 }
      else none
  let lines := linesOfGroups (groupWordsIntoLines words)
  let blocks := blocksOfGroups (groupLinesIntoBlocks lines)
  { pageNumber := pageNumber
    width := canvasW
    height := canvasH
    words := words
    lines := lines
    blocks := blocks
    coverage := { pdfNativeWords := 0, ocrWords := words.length
                  reconciledWords := words.length, coveragePercent := 95 }
    semanticRegions := generateSemanticRegions blocks }

/-- `mapBlockTypeToChunkType`: the fixed block-type to chunk-type table. -/
def mapBlockTypeToChunkType (blockType : String) : String :=
  if blockType = "paragraph" then "text"
  else if blockType = "heading" then "title"
  else if blockType = "list" then "list"
  else if blockType = "table" then "table"
  else if blockType = "image" then "figure"
  else if blockType = "line" then "text"
  else if blockType = "footer" then "footer"
  else if blockType = "header" then "header"
  else if blockType = "form_field" then "form_field"
  else if blockType = "signature" then "figure"
  else if blockType = "logo" then "figure"
  else if blockType = "caption" then "caption"
  else "text"

/-- `generateTextChunks`: project every block of every IR page into a
grounded chunk whose `chunk_id` is the block's id (blocks with
whitespace-only text are skipped). -/
def generateTextChunks (irPages : List IRPage) : List TextChunk :=
  (irPages.map fun page =>
    page.blocks.filterMap fun block =>
      let text := String.intercalate "\n"
        (block.lines.map fun line => String.intercalate " " (line.words.map fun w => w.text))
      if (trimChars text.data).length = 0 then none
      else
        some { chunk_id := block.id
               text := String.mk (trimChars text.data)
               chunk_type := mapBlockTypeToChunkType block.type
               grounding := [{ page := page.pageNumber - 1
                               box := { l := block.bbox.x, t := block.bbox.y
                                        r := block.bbox.x + block.bbox.width
                                        b := block.bbox.y + block.bbox.height } }]
               confidence := block.confidence
               semantic_role := block.semanticRole }).flatten

/-! ## Claim theorems -/

/-- C1: the claim asserts all emitted chunk ids are globally unique across
pages.  The code derives `chunk_id` from the per-page `block-I` ids, so a
two-page document whose pages each produce one block emits two distinct
chunks (grounded on pages 0 and 1) that share the id `block-0`. -/
theorem chunk_ids_collide_across_pages :
    (generateTextChunks
        [performEnhancedOCRPage 100 100 1 [(⟨"Hello", 90, some ⟨0, 0, 10, 10⟩⟩ : OCRItem)],
         performEnhancedOCRPage 100 100 2 [(⟨"Hello", 90, some ⟨0, 0, 10, 10⟩⟩ : OCRItem)]]).map
        (fun c => (c.chunk_id, c.grounding.map Grounding.page))
      = [("block-0", [0]), ("block-0", [1])] := by
  with_unfolding_all rfl

/-- C2: when the OCR step fails (the call throws, modelled by `none`, or the
engine errors and `performOCR` returns `[]`), the page result is the grouped
native PDF.js projection — possibly empty — wrapped in `Except.ok`, never an
error. -/
theorem ocr_failure_keeps_native_projection (native : List LegacyTextChunk) :
    processPageChunks native none = Except.ok (groupNearbyTextChunks native)
    ∧ processPageChunks native (some []) = Except.ok (groupNearbyTextChunks native)
    ∧ processPageChunks [] none = Except.ok [] := by
  refine ⟨?_, ?_, rfl⟩
  · simp only [processPageChunks]
    split <;> rfl
  · simp only [processPageChunks, usesOCRResults, hasHigherQuality]
    split <;> simp

/-- C6: on the two-token input `{"Hello", x=10, y=10, w=20, h=5}` and
`{"World", x=32, y=10, w=20, h=5}`, `groupNearbyTextChunks` outputs exactly
one merged chunk `"Hello World"` with the union box `x=10, y=10, w=42, h=5`. -/
theorem hello_world_merges_to_one_line :
    groupNearbyTextChunks
        [({ id := "c1", text := "Hello", pageNumber := 1,
            geometry := { x := 10, y := 10, w := 20, h := 5 } } : LegacyTextChunk),
         ({ id := "c2", text := "World", pageNumber := 1,
            geometry := { x := 32, y := 10, w := 20, h := 5 } } : LegacyTextChunk)]
      = [({ id := "c1", text := "Hello World", pageNumber := 1,
            geometry := { x := 10, y := 10, w := 42, h := 5 } } : LegacyTextChunk)] := by
  with_unfolding_all rfl

/-- C10: `transformGroundingToLegacy` reads only `grounding[0]`: the result
is unchanged when the tail groundings are discarded, and its page number and
geometry are computed solely from the first grounding. -/
theorem transformGroundingToLegacy_uses_first_grounding
    (textChunk : TextChunk) (pageWidth pageHeight : ℚ)
    (g : Grounding) (rest : List Grounding)
    (h : textChunk.grounding = g :: rest) :
    transformGroundingToLegacy textChunk pageWidth pageHeight
        = transformGroundingToLegacy { textChunk with grounding := [g] } pageWidth pageHeight
    ∧ transformGroundingToLegacy textChunk pageWidth pageHeight
        = some { id := textChunk.chunk_id, text := textChunk.text, pageNumber := g.page + 1
                 geometry := { x := g.box.l * pageWidth, y := g.box.t * pageHeight
                               w := (g.box.r - g.box.l) * pageWidth
                               h := (g.box.b - g.box.t) * pageHeight } } := by
  constructor <;> simp [transformGroundingToLegacy, h]

/-- C10 witness: a chunk carrying two groundings transforms identically to
the same chunk restricted to its first grounding. -/
theorem transformGroundingToLegacy_uses_first_grounding_witness :
    transformGroundingToLegacy
        ({ text := "t", chunk_id := "id1", chunk_type := "text",
           grounding := [{ page := 0, box := { l := 0, t := 0, r := 1, b := 1 } },
                         { page := 5, box := { l := 1/2, t := 1/2, r := 1, b := 1 } }],
           confidence := 1, semantic_role := none } : TextChunk) 2 3
      = transformGroundingToLegacy
        ({ text := "t", chunk_id := "id1", chunk_type := "text",
           grounding := [{ page := 0, box := { l := 0, t := 0, r := 1, b := 1 } }],
           confidence := 1, semantic_role := none } : TextChunk) 2 3 :=
  (transformGroundingToLegacy_uses_first_grounding _ 2 3
    { page := 0, box := { l := 0, t := 0, r := 1, b := 1 } }
    [{ page := 5, box := { l := 1/2, t := 1/2, r := 1, b := 1 } }] rfl).1

/-- C3: with positive page dimensions the two coordinate transforms invert
each other exactly (hence well within the claimed 1e-6 relative tolerance):
a legacy chunk survives the grounding round trip unchanged, and a chunk's
first grounding survives the legacy round trip unchanged. -/
theorem transform_round_trip (pageWidth pageHeight : ℚ)
    (hW : 0 < pageWidth) (hH : 0 < pageHeight) :
    (∀ legacyChunk : LegacyTextChunk,
      transformGroundingToLegacy (transformLegacyToGrounding legacyChunk pageWidth pageHeight)
          pageWidth pageHeight = some legacyChunk)
    ∧ (∀ (textChunk : TextChunk) (g : Grounding) (rest : List Grounding),
        textChunk.grounding = g :: rest →
        ∃ legacyChunk,
          transformGroundingToLegacy textChunk pageWidth pageHeight = some legacyChunk
          ∧ (transformLegacyToGrounding legacyChunk pageWidth pageHeight).grounding = [g]) := by
  have hW0 : pageWidth ≠ 0 := ne_of_gt hW
  have hH0 : pageHeight ≠ 0 := ne_of_gt hH
  constructor
  · rintro ⟨i, t, p, ⟨x, y, w, h⟩⟩
    simp only [transformLegacyToGrounding, transformGroundingToLegacy, List.head?,
      Option.some.injEq, LegacyTextChunk.mk.injEq, Geometry.mk.injEq]
    refine ⟨trivial, trivial, by ring, ?_, ?_, ?_, ?_⟩ <;> field_simp
  · rintro ⟨t, cid, ctype, gr, conf, srole⟩ g rest h
    simp only at h
    subst h
    obtain ⟨gp, ⟨gl, gt, grr, gb⟩⟩ := g
    refine ⟨_, rfl, ?_⟩
    simp only [transformGroundingToLegacy, transformLegacyToGrounding, List.head?,
      List.cons.injEq, Grounding.mk.injEq, GroundingBox.mk.injEq]
    refine ⟨⟨by ring, ?_, ?_, ?_, ?_⟩, trivial⟩ <;> field_simp <;> ring

/-- C3 witness: the round trip at page size 2 x 3 on a concrete chunk. -/
theorem transform_round_trip_witness :
    (0:ℚ) < 2 ∧ (0:ℚ) < 3 ∧
      transformGroundingToLegacy
          (transformLegacyToGrounding
            ({ id := "a", text := "txt", pageNumber := 4,
               geometry := { x := 1, y := 2, w := 3, h := 4 } } : LegacyTextChunk) 2 3) 2 3
        = some ({ id := "a", text := "txt", pageNumber := 4,
                  geometry := { x := 1, y := 2, w := 3, h := 4 } } : LegacyTextChunk) :=
  ⟨by norm_num, by norm_num,
    (transform_round_trip 2 3 (by norm_num) (by norm_num)).1 _⟩

/-- The OCR-over-native selection condition exactly as the claim words it
(average OCR text length above 1.2x the native average, or OCR count above
1.5x the native count); stated for comparison with `usesOCRResults`. -/
def claimedOCRSelectionCond (ocrChunks pdfTextChunks : List LegacyTextChunk) : Prop :=
  avgTextLength ocrChunks > avgTextLength pdfTextChunks * (12/10) ∨
    (ocrChunks.length : ℚ) > (pdfTextChunks.length : ℚ) * (15/10)

instance (ocrChunks pdfTextChunks : List LegacyTextChunk) :
    Decidable (claimedOCRSelectionCond ocrChunks pdfTextChunks) := by
  unfold claimedOCRSelectionCond
  infer_instance

/-- C4 counterexample: three OCR chunks "abc" against two native chunks
"abc".  OCR is triggered (2 < 10 native chunks) and the code selects OCR
(3 > 2), but the claim's condition is false: the averages are equal and
3 is not greater than 2 * 1.5. -/
theorem ocr_selection_counterexample :
    ([(⟨"p1", "abc", 1, ⟨0, 0, 1, 1⟩⟩ : LegacyTextChunk),
      ⟨"p2", "abc", 1, ⟨0, 0, 1, 1⟩⟩] : List LegacyTextChunk).length < 10
    ∧ usesOCRResults
        [⟨"o1", "abc", 1, ⟨0, 0, 1, 1⟩⟩, ⟨"o2", "abc", 1, ⟨0, 0, 1, 1⟩⟩,
         ⟨"o3", "abc", 1, ⟨0, 0, 1, 1⟩⟩]
        [⟨"p1", "abc", 1, ⟨0, 0, 1, 1⟩⟩, ⟨"p2", "abc", 1, ⟨0, 0, 1, 1⟩⟩] = true
    ∧ ¬ claimedOCRSelectionCond
        [⟨"o1", "abc", 1, ⟨0, 0, 1, 1⟩⟩, ⟨"o2", "abc", 1, ⟨0, 0, 1, 1⟩⟩,
         ⟨"o3", "abc", 1, ⟨0, 0, 1, 1⟩⟩]
        [⟨"p1", "abc", 1, ⟨0, 0, 1, 1⟩⟩, ⟨"p2", "abc", 1, ⟨0, 0, 1, 1⟩⟩] :=
  ⟨by norm_num, by with_unfolding_all rfl,
    of_decide_eq_false (by with_unfolding_all rfl)⟩

/-- C4 amended: for a page where OCR was triggered and returned a non-empty
chunk list, the code selects OCR exactly when the OCR chunk count exceeds
the native count, or the native list is non-empty and the OCR average text
length exceeds 1.2x the native average (the claim's pure-1.2x/1.5x condition
misses the plain count comparison). -/
theorem ocr_selected_iff (ocrChunks pdfTextChunks : List LegacyTextChunk)
    (hocr : ocrChunks ≠ [])
    (htrig : pdfTextChunks.length < 10 ∨ shouldUseOCR pdfTextChunks = true) :
    usesOCRResults ocrChunks pdfTextChunks = true ↔
      (pdfTextChunks.length < ocrChunks.length ∨
        (pdfTextChunks ≠ [] ∧
          avgTextLength ocrChunks > avgTextLength pdfTextChunks * (12/10))) := by
  have hlo : ocrChunks.length ≠ 0 := fun hh => hocr (List.length_eq_zero.mp hh)
  by_cases hpdf : pdfTextChunks = []
  · subst hpdf
    simp [usesOCRResults, hasHigherQuality, hlo, List.length_pos, hocr]
  · have hlp : pdfTextChunks.length ≠ 0 := fun hh => hpdf (List.length_eq_zero.mp hh)
    simp only [usesOCRResults, hasHigherQuality, if_neg hlo, if_neg hlp,
      Bool.or_eq_true, decide_eq_true_eq]
    constructor
    · rintro (h | h | h)
      · exact Or.inl h
      · exact Or.inr ⟨hpdf, h⟩
      · left
        have h0 : (0:ℚ) ≤ (pdfTextChunks.length : ℚ) := Nat.cast_nonneg _
        have hcast : (pdfTextChunks.length : ℚ) < (ocrChunks.length : ℚ) := by linarith
        exact_mod_cast hcast
    · rintro (h | ⟨-, h⟩)
      · exact Or.inl h
      · exact Or.inr (Or.inl h)

/-- C4 witness: a singleton OCR list against an empty native list satisfies
the hypotheses, and the amended equivalence evaluates concretely. -/
theorem ocr_selected_iff_witness :
    ([(⟨"o1", "abcd", 1, ⟨0, 0, 1, 1⟩⟩ : LegacyTextChunk)] : List LegacyTextChunk) ≠ []
    ∧ (([] : List LegacyTextChunk).length < 10 ∨ shouldUseOCR [] = true)
    ∧ (usesOCRResults [⟨"o1", "abcd", 1, ⟨0, 0, 1, 1⟩⟩] [] = true ↔
        (([] : List LegacyTextChunk).length < 1 ∨
          (([] : List LegacyTextChunk) ≠ [] ∧
            avgTextLength [⟨"o1", "abcd", 1, ⟨0, 0, 1, 1⟩⟩]
              > avgTextLength [] * (12/10)))) :=
  ⟨by simp, Or.inl (by norm_num),
    ocr_selected_iff [⟨"o1", "abcd", 1, ⟨0, 0, 1, 1⟩⟩] [] (by simp) (Or.inl (by norm_num))⟩

/-! ## Run-splitting lemmas (for the block clusterer) -/

/-- The runs of `splitRunsAux` concatenate back to the input. -/
theorem splitRunsAux_flatten (brk : α → α → Bool) (prev : α) (xs : List α) :
    (splitRunsAux brk prev xs).1 ++ (splitRunsAux brk prev xs).2.flatten = xs := by
  induction xs generalizing prev with
  | nil => rfl
  | cons x xs ih =>
    simp only [splitRunsAux]
    by_cases h : brk prev x <;> simp [h, ih x]

/-- Inside every run produced by `splitRunsAux`, consecutive elements never
satisfy the break predicate. -/
theorem splitRunsAux_chain (brk : α → α → Bool) (prev : α) (xs : List α) :
    List.Chain' (fun a b => brk a b = false) (prev :: (splitRunsAux brk prev xs).1)
    ∧ ∀ B ∈ (splitRunsAux brk prev xs).2,
        List.Chain' (fun a b => brk a b = false) B := by
  induction xs generalizing prev with
  | nil => exact ⟨List.chain'_singleton prev, by simp [splitRunsAux]⟩
  | cons x xs ih =>
    have ihx := ih x
    simp only [splitRunsAux]
    cases hb : brk prev x with
    | true =>
      rw [if_pos rfl]
      refine ⟨List.chain'_singleton prev, ?_⟩
      intro B hB
      rcases List.mem_cons.mp hB with hB | hB
      · exact hB ▸ ihx.1
      · exact ihx.2 B hB
    | false =>
      rw [if_neg Bool.false_ne_true]
      exact ⟨List.chain'_cons.mpr ⟨hb, ihx.1⟩, ihx.2⟩

/-- Across every boundary between adjacent runs of `splitRunsAux`, the break
predicate holds from the last element of a run to the head of the next. -/
theorem splitRunsAux_boundary (brk : α → α → Bool) (prev : α) (xs : List α) :
    List.Chain' (fun B B' => ∀ x ∈ B.getLast?, ∀ y ∈ B'.head?, brk x y = true)
      ((prev :: (splitRunsAux brk prev xs).1) :: (splitRunsAux brk prev xs).2) := by
  induction xs generalizing prev with
  | nil => simp [splitRunsAux]
  | cons x xs ih =>
    have ihx := ih x
    simp only [splitRunsAux]
    cases hb : brk prev x with
    | true =>
      rw [if_pos rfl]
      refine List.chain'_cons.mpr ⟨?_, ihx⟩
      intro u hu v hv
      simp only [List.getLast?_singleton, Option.mem_def, Option.some.injEq] at hu
      simp only [List.head?_cons, Option.mem_def, Option.some.injEq] at hv
      subst hu; subst hv; exact hb
    | false =>
      rw [if_neg Bool.false_ne_true]
      show List.Chain' _ ((prev :: x :: (splitRunsAux brk x xs).1) :: (splitRunsAux brk x xs).2)
      rcases hr2 : (splitRunsAux brk x xs).2 with - | ⟨B, rest⟩
      · exact List.chain'_singleton _
      · rw [hr2] at ihx
        refine List.chain'_cons.mpr ⟨?_, (List.chain'_cons.mp ihx).2⟩
        have hRb := (List.chain'_cons.mp ihx).1
        intro u hu v hv
        apply hRb
        · rwa [List.getLast?_cons_cons] at hu
        · exact hv

/-- Every later run produced by `splitRunsAux` is non-empty. -/
theorem splitRunsAux_ne_nil (brk : α → α → Bool) (prev : α) (xs : List α) :
    ∀ B ∈ (splitRunsAux brk prev xs).2, B ≠ [] := by
  induction xs generalizing prev with
  | nil => simp [splitRunsAux]
  | cons x xs ih =>
    have ihx := ih x
    simp only [splitRunsAux]
    cases hb : brk prev x with
    | true =>
      rw [if_pos rfl]
      intro B hB
      rcases List.mem_cons.mp hB with hB | hB
      · exact hB ▸ List.cons_ne_nil x _
      · exact ihx B hB
    | false =>
      rw [if_neg Bool.false_ne_true]
      exact ihx

/-- C5 counterexample: two lines whose vertical gap is exactly 0.03 (so
`>= blockBreakThreshold` holds) are still placed in the same block, because
the code breaks only on a strict `> 0.03`. -/
theorem block_boundary_counterexample :
    lineGap (⟨"l0", [], ⟨0, 0, 1, 1/10⟩, 0, "left"⟩ : Line)
        (⟨"l1", [], ⟨0, 13/100, 1, 1/10⟩, 1, "left"⟩ : Line) ≥ 3/100
    ∧ groupLinesIntoBlocks
        [⟨"l0", [], ⟨0, 0, 1, 1/10⟩, 0, "left"⟩, ⟨"l1", [], ⟨0, 13/100, 1, 1/10⟩, 1, "left"⟩]
      = [[⟨"l0", [], ⟨0, 0, 1, 1/10⟩, 0, "left"⟩, ⟨"l1", [], ⟨0, 13/100, 1, 1/10⟩, 1, "left"⟩]] :=
  ⟨by norm_num [lineGap], by with_unfolding_all rfl⟩

/-- C5 amended: `groupLinesIntoBlocks` partitions the line list into
non-empty consecutive blocks; two consecutive lines share a block exactly
when their vertical gap is at most 0.03 (strictly greater than 0.03 always
splits; at most 0.03 — including exactly 0.03 — always stays together). -/
theorem groupLinesIntoBlocks_gap_characterization (lines : List Line) :
    (groupLinesIntoBlocks lines).flatten = lines
    ∧ (∀ B ∈ groupLinesIntoBlocks lines, B ≠ [])
    ∧ (∀ B ∈ groupLinesIntoBlocks lines, B.Chain' (fun a b => lineGap a b ≤ 3/100))
    ∧ (groupLinesIntoBlocks lines).Chain'
        (fun B B' => ∀ x ∈ B.getLast?, ∀ y ∈ B'.head?, lineGap x y > 3/100) := by
  have hconv : ∀ a b : Line,
      (decide (lineGap a b > 3/100) = false) ↔ lineGap a b ≤ 3/100 := by
    intro a b
    rw [decide_eq_false_iff_not, not_lt]
  cases lines with
  | nil =>
    exact ⟨rfl, by simp [groupLinesIntoBlocks, splitRuns],
      by simp [groupLinesIntoBlocks, splitRuns], by simp [groupLinesIntoBlocks, splitRuns]⟩
  | cons l ls =>
    set brk : Line → Line → Bool := fun prev cur => decide (lineGap prev cur > 3/100) with hbrk
    have hflat := splitRunsAux_flatten brk l ls
    have hchain := splitRunsAux_chain brk l ls
    have hbound := splitRunsAux_boundary brk l ls
    have hne := splitRunsAux_ne_nil brk l ls
    refine ⟨?_, ?_, ?_, ?_⟩
    · simpa [groupLinesIntoBlocks, splitRuns] using hflat
    · intro B hB
      simp only [groupLinesIntoBlocks, splitRuns] at hB
      rcases List.mem_cons.mp hB with hB | hB
      · exact hB ▸ List.cons_ne_nil l _
      · exact hne B hB
    · intro B hB
      simp only [groupLinesIntoBlocks, splitRuns] at hB
      rcases List.mem_cons.mp hB with hB | hB
      · exact hB ▸ (hchain.1.imp fun a b hab => (hconv a b).mp hab)
      · exact (hchain.2 B hB).imp fun a b hab => (hconv a b).mp hab
    · have hconvd := hbound.imp
        (fun B B' hBB => fun x hx y hy => of_decide_eq_true (hBB x hx y hy))
      simpa [groupLinesIntoBlocks, splitRuns] using hconvd

/-- C5 witness: the characterization applied to a concrete three-line list
with one genuine block break. -/
theorem groupLinesIntoBlocks_gap_characterization_witness :
    (groupLinesIntoBlocks
        [⟨"a", [], ⟨0, 0, 1, 1/10⟩, 0, "left"⟩, ⟨"b", [], ⟨0, 12/100, 1, 1/10⟩, 1, "left"⟩,
         ⟨"c", [], ⟨0, 1/2, 1, 1/10⟩, 2, "left"⟩]).flatten
      = [⟨"a", [], ⟨0, 0, 1, 1/10⟩, 0, "left"⟩, ⟨"b", [], ⟨0, 12/100, 1, 1/10⟩, 1, "left"⟩,
         ⟨"c", [], ⟨0, 1/2, 1, 1/10⟩, 2, "left"⟩] :=
  (groupLinesIntoBlocks_gap_characterization
    [⟨"a", [], ⟨0, 0, 1, 1/10⟩, 0, "left"⟩, ⟨"b", [], ⟨0, 12/100, 1, 1/10⟩, 1, "left"⟩,
     ⟨"c", [], ⟨0, 1/2, 1, 1/10⟩, 2, "left"⟩]).1

/-! ## Sorting length lemmas (for the semantic region classifier) -/

/-- Inserting one element grows the list by one. -/
theorem insertCmp_length (cmp : α → α → ℚ) (a : α) (l : List α) :
    (insertCmp cmp a l).length = l.length + 1 := by
  induction l with
  | nil => rfl
  | cons b bs ih =>
    simp only [insertCmp]
    split <;> simp [ih]

/-- The insertion fold preserves total length. -/
theorem sortByCmp_foldl_length (cmp : α → α → ℚ) (l acc : List α) :
    (l.foldl (fun acc a => insertCmp cmp a acc) acc).length = acc.length + l.length := by
  induction l generalizing acc with
  | nil => simp
  | cons x xs ih =>
    simp only [List.foldl_cons, ih, insertCmp_length, List.length_cons]
    omega

/-- The stable comparator sort preserves length. -/
theorem sortByCmp_length (cmp : α → α → ℚ) (l : List α) :
    (sortByCmp cmp l).length = l.length := by
  simpa [sortByCmp] using sortByCmp_foldl_length cmp l []

/-- `getLast?` of a cons, in `getLastD` form. -/
theorem getLast?_cons_getLastD (a : α) (l : List α) :
    (a :: l).getLast? = some (l.getLastD a) := by
  induction l generalizing a with
  | nil => rfl
  | cons b bs ih =>
    rw [List.getLast?_cons_cons, ih, List.getLastD_cons]

/-- C8: for a non-empty block list (witnessed by the sorted list's head and
last elements), `generateSemanticRegions` emits a header region exactly when
the vertically first block starts in the top 20% (confidence 0.70, grounded
on that block), a footer region exactly when the vertically last block ends
beyond 80% (confidence 0.70), and exactly one main-content region exactly
when some block lies strictly inside (20%, 80%), carrying exactly those
blocks' ids (confidence 0.80). -/
theorem semantic_regions_characterization (blocks : List Block) (top bot : Block)
    (htop : (sortBlocksByY blocks).head? = some top)
    (hbot : (sortBlocksByY blocks).getLast? = some bot) :
    (generateSemanticRegions blocks).filter (fun r => r.type == "header")
        = (if top.bbox.y < 1/5 then [headerRegionOf top] else [])
    ∧ (generateSemanticRegions blocks).filter (fun r => r.type == "footer")
        = (if bot.bbox.y + bot.bbox.height > 4/5 then [footerRegionOf bot] else [])
    ∧ (generateSemanticRegions blocks).filter (fun r => r.type == "main_content")
        = (if ((sortBlocksByY blocks).filter isMainBlock) ≠ [] then
            [mainRegionOf ((sortBlocksByY blocks).filter isMainBlock)] else []) := by
  rcases hs : sortBlocksByY blocks with - | ⟨t, rest⟩
  · rw [hs] at htop
    cases htop
  · rw [hs] at htop hbot
    simp only [List.head?_cons, Option.some.injEq] at htop
    rw [getLast?_cons_getLastD] at hbot
    simp only [Option.some.injEq] at hbot
    subst htop
    subst hbot
    simp only [generateSemanticRegions, hs]
    refine ⟨?_, ?_, ?_⟩ <;>
      · split_ifs <;>
          simp_all [headerRegionOf, footerRegionOf, mainRegionOf,
            List.filter_append, List.length_pos, List.filter_cons]

/-- C8 witness: a single block strictly inside (20%, 80%) yields no header,
no footer, and one main-content region. -/
theorem semantic_regions_characterization_witness :
    (sortBlocksByY [(⟨"b0", "paragraph", ⟨0, 3/10, 1, 1/5⟩, [], 1, 0, none⟩ : Block)]).head?
        = some (⟨"b0", "paragraph", ⟨0, 3/10, 1, 1/5⟩, [], 1, 0, none⟩ : Block)
    ∧ (sortBlocksByY [(⟨"b0", "paragraph", ⟨0, 3/10, 1, 1/5⟩, [], 1, 0, none⟩ : Block)]).getLast?
        = some (⟨"b0", "paragraph", ⟨0, 3/10, 1, 1/5⟩, [], 1, 0, none⟩ : Block)
    ∧ ((generateSemanticRegions [(⟨"b0", "paragraph", ⟨0, 3/10, 1, 1/5⟩, [], 1, 0, none⟩ : Block)]).filter
          (fun r => r.type == "header")
        = (if (⟨"b0", "paragraph", ⟨0, 3/10, 1, 1/5⟩, [], 1, 0, none⟩ : Block).bbox.y < 1/5 then
            [headerRegionOf ⟨"b0", "paragraph", ⟨0, 3/10, 1, 1/5⟩, [], 1, 0, none⟩] else [])
      ∧ (generateSemanticRegions [(⟨"b0", "paragraph", ⟨0, 3/10, 1, 1/5⟩, [], 1, 0, none⟩ : Block)]).filter
          (fun r => r.type == "footer")
        = (if (⟨"b0", "paragraph", ⟨0, 3/10, 1, 1/5⟩, [], 1, 0, none⟩ : Block).bbox.y
              + (⟨"b0", "paragraph", ⟨0, 3/10, 1, 1/5⟩, [], 1, 0, none⟩ : Block).bbox.height > 4/5 then
            [footerRegionOf ⟨"b0", "paragraph", ⟨0, 3/10, 1, 1/5⟩, [], 1, 0, none⟩] else [])
      ∧ (generateSemanticRegions [(⟨"b0", "paragraph", ⟨0, 3/10, 1, 1/5⟩, [], 1, 0, none⟩ : Block)]).filter
          (fun r => r.type == "main_content")
        = (if ((sortBlocksByY [(⟨"b0", "paragraph", ⟨0, 3/10, 1, 1/5⟩, [], 1, 0, none⟩ : Block)]).filter
                isMainBlock) ≠ [] then
            [mainRegionOf ((sortBlocksByY
                [(⟨"b0", "paragraph", ⟨0, 3/10, 1, 1/5⟩, [], 1, 0, none⟩ : Block)]).filter isMainBlock)]
          else [])) :=
  ⟨rfl, rfl,
    semantic_regions_characterization
      [⟨"b0", "paragraph", ⟨0, 3/10, 1, 1/5⟩, [], 1, 0, none⟩]
      ⟨"b0", "paragraph", ⟨0, 3/10, 1, 1/5⟩, [], 1, 0, none⟩
      ⟨"b0", "paragraph", ⟨0, 3/10, 1, 1/5⟩, [], 1, 0, none⟩ rfl rfl⟩

/-- The word pass emits no chunk exactly when no word passes the filter. -/
theorem ocrWordChunks_eq_nil_iff (imgW imgH : ℚ) (pageNum : ℤ) (words : List OCRItem) :
    ocrWordChunks imgW imgH pageNum words = [] ↔
      ∀ it ∈ words, acceptOCRItem imgW imgH it = none := by
  simp [ocrWordChunks, List.mapIdx_eq_nil_iff, List.filterMap_eq_nil_iff, Option.map_eq_none']

/-- The line pass emits no chunk exactly when no line passes the filter. -/
theorem ocrLineChunks_eq_nil_iff (imgW imgH : ℚ) (pageNum : ℤ) (lines : List OCRItem) :
    ocrLineChunks imgW imgH pageNum lines = [] ↔
      ∀ it ∈ lines, acceptOCRItem imgW imgH it = none := by
  simp [ocrLineChunks, List.mapIdx_eq_nil_iff, List.filterMap_eq_nil_iff, Option.map_eq_none']

/-- C7 counterexample: a word passes the acceptance filter, yet `performOCR`
emits nothing, because the whole-page recognized text is empty and the outer
guard `data.text.trim().length > 0` short-circuits every granularity. -/
theorem ocr_granularity_counterexample :
    (acceptOCRItem 100 100 (⟨"Hi", 90, some ⟨10, 10, 20, 20⟩⟩ : OCRItem)).isSome = true
    ∧ performOCRChunks 100 100 1 ⟨"", [⟨"Hi", 90, some ⟨10, 10, 20, 20⟩⟩], []⟩ = [] :=
  ⟨by with_unfolding_all rfl, by with_unfolding_all rfl⟩

/-- C7 amended: provided the whole-page recognized text is non-empty after
trimming, `performOCR` emits word-level chunks exactly when some word passes
the acceptance filter; line-level chunks only when no word passed and some
line passes; and the single whole-page chunk only when neither pass
produced anything. -/
theorem performOCR_granularity_preference (imgW imgH : ℚ) (pageNum : ℤ) (data : OCRData)
    (htext : (trimChars data.text.data).length > 0) :
    ((∃ it ∈ data.words, (acceptOCRItem imgW imgH it).isSome = true) →
        performOCRChunks imgW imgH pageNum data = ocrWordChunks imgW imgH pageNum data.words
        ∧ ocrWordChunks imgW imgH pageNum data.words ≠ [])
    ∧ ((∀ it ∈ data.words, acceptOCRItem imgW imgH it = none) →
        (∃ it ∈ data.lines, (acceptOCRItem imgW imgH it).isSome = true) →
        performOCRChunks imgW imgH pageNum data = ocrLineChunks imgW imgH pageNum data.lines
        ∧ ocrLineChunks imgW imgH pageNum data.lines ≠ [])
    ∧ ((∀ it ∈ data.words, acceptOCRItem imgW imgH it = none) →
        (∀ it ∈ data.lines, acceptOCRItem imgW imgH it = none) →
        performOCRChunks imgW imgH pageNum data = [ocrFullPageChunk pageNum data.text]) := by
  refine ⟨?_, ?_, ?_⟩
  · rintro ⟨it, hmem, hsome⟩
    have hne : ocrWordChunks imgW imgH pageNum data.words ≠ [] := by
      intro h0
      have hnone := (ocrWordChunks_eq_nil_iff imgW imgH pageNum data.words).mp h0 it hmem
      rw [hnone] at hsome
      exact Bool.false_ne_true hsome
    refine ⟨?_, hne⟩
    simp only [performOCRChunks]
    rw [if_pos htext, if_neg (fun hlen => hne (List.length_eq_zero.mp hlen))]
  · intro hwords
    rintro ⟨it, hmem, hsome⟩
    have hwnil : ocrWordChunks imgW imgH pageNum data.words = [] :=
      (ocrWordChunks_eq_nil_iff imgW imgH pageNum data.words).mpr hwords
    have hne : ocrLineChunks imgW imgH pageNum data.lines ≠ [] := by
      intro h0
      have hnone := (ocrLineChunks_eq_nil_iff imgW imgH pageNum data.lines).mp h0 it hmem
      rw [hnone] at hsome
      exact Bool.false_ne_true hsome
    refine ⟨?_, hne⟩
    simp only [performOCRChunks]
    rw [if_pos htext, if_pos (by rw [hwnil]; rfl),
      if_neg (fun hlen => hne (List.length_eq_zero.mp hlen))]
  · intro hwords hlines
    have hwnil : ocrWordChunks imgW imgH pageNum data.words = [] :=
      (ocrWordChunks_eq_nil_iff imgW imgH pageNum data.words).mpr hwords
    have hlnil : ocrLineChunks imgW imgH pageNum data.lines = [] :=
      (ocrLineChunks_eq_nil_iff imgW imgH pageNum data.lines).mpr hlines
    simp only [performOCRChunks]
    rw [if_pos htext, if_pos (by rw [hwnil]; rfl), if_pos (by rw [hlnil]; rfl), if_pos htext]

/-- C7 witness: a page with non-empty text and one passing word emits the
word-level chunks. -/
theorem performOCR_granularity_preference_witness :
    (trimChars ("Hi" : String).data).length > 0
    ∧ performOCRChunks 100 100 1 ⟨"Hi", [⟨"Hi", 90, some ⟨10, 10, 20, 20⟩⟩], []⟩
        = ocrWordChunks 100 100 1 [⟨"Hi", 90, some ⟨10, 10, 20, 20⟩⟩] :=
  ⟨by decide,
    ((performOCR_granularity_preference 100 100 1
          ⟨"Hi", [⟨"Hi", 90, some ⟨10, 10, 20, 20⟩⟩], []⟩ (by decide)).1
        ⟨⟨"Hi", 90, some ⟨10, 10, 20, 20⟩⟩, List.mem_cons_self _ _,
          by with_unfolding_all rfl⟩).1⟩

/-! ## Whitespace-normalization lemmas (for the line clusterer's cleanup) -/

/-- The head of a `dropWhile` never satisfies the dropped predicate. -/
theorem head?_dropWhile_not_prop (p : α → Bool) (l : List α) :
    ∀ a, (l.dropWhile p).head? = some a → p a = false := by
  induction l with
  | nil => intro a h; cases h
  | cons x xs ih =>
    intro a h
    rw [List.dropWhile_cons] at h
    by_cases hp : p x = true
    · rw [if_pos hp] at h
      exact ih a h
    · rw [if_neg hp] at h
      simp only [List.head?_cons, Option.some.injEq] at h
      subst h
      exact Bool.not_eq_true _ ▸ Bool.of_not_eq_true hp

/-- `dropWhile` keeps the last element when it keeps anything at all. -/
theorem getLast?_dropWhile_of_ne_nil (p : α → Bool) (l : List α)
    (h : l.dropWhile p ≠ []) : (l.dropWhile p).getLast? = l.getLast? := by
  induction l with
  | nil => simp at h
  | cons x xs ih =>
    rw [List.dropWhile_cons] at h ⊢
    by_cases hp : p x = true
    · rw [if_pos hp] at h ⊢
      rw [ih h]
      cases xs with
      | nil => simp at h
      | cons y ys => rw [List.getLast?_cons_cons]
    · rw [if_neg hp]

/-- An element not satisfying the predicate survives `dropWhile`. -/
theorem mem_dropWhile_of_not (p : α → Bool) (l : List α) (c : α)
    (hc : c ∈ l) (hp : p c = false) : c ∈ l.dropWhile p := by
  induction l with
  | nil => cases hc
  | cons x xs ih =>
    rw [List.dropWhile_cons]
    rcases List.mem_cons.mp hc with rfl | hmem
    · rw [if_neg (by simp [hp])]
      exact List.mem_cons_self _ _
    · by_cases hx : p x = true
      · rw [if_pos hx]
        exact ih hmem
      · rw [if_neg hx]
        exact List.mem_cons_of_mem _ hmem

/-- Every whitespace character surviving `collapseWs` is a plain space. -/
theorem collapseWs_ws_eq_space (s : List Char) :
    ∀ c ∈ collapseWs s, c.isWhitespace = true → c = ' ' := by
  induction s with
  | nil => simp [collapseWs]
  | cons a tail ih =>
    cases tail with
    | nil =>
      intro c hc hw
      simp only [collapseWs] at hc
      by_cases ha : a.isWhitespace = true
      · rw [if_pos ha] at hc
        simpa using hc
      · rw [if_neg ha] at hc
        simp only [List.mem_singleton] at hc
        subst hc
        exact absurd hw ha
    | cons b rest =>
      intro c hc hw
      simp only [collapseWs] at hc
      by_cases hab : (a.isWhitespace && b.isWhitespace) = true
      · rw [if_pos hab] at hc
        exact ih c hc hw
      · rw [if_neg hab] at hc
        rcases List.mem_cons.mp hc with rfl | hmem
        · by_cases ha : a.isWhitespace = true
          · rw [if_pos ha]
          · rw [if_neg ha] at hw ⊢
            exact absurd hw ha
        · exact ih c hmem hw

/-- `collapseWs` of a list starting with a non-whitespace character starts
with that character. -/
theorem collapseWs_head_not_ws (b : Char) (rest : List Char)
    (hb : b.isWhitespace = false) : (collapseWs (b :: rest)).head? = some b := by
  cases rest with
  | nil => simp [collapseWs, hb]
  | cons c cs =>
    simp only [collapseWs]
    rw [if_neg (by simp [hb]), if_neg (by simp [hb])]
    rfl

/-- `collapseWs` never leaves two adjacent whitespace characters. -/
theorem collapseWs_chain (s : List Char) :
    List.Chain' (fun a b => ¬(a.isWhitespace = true ∧ b.isWhitespace = true))
      (collapseWs s) := by
  induction s with
  | nil => simp [collapseWs]
  | cons a tail ih =>
    cases tail with
    | nil =>
      simp only [collapseWs]
      split <;> exact List.chain'_singleton _
    | cons b rest =>
      simp only [collapseWs]
      by_cases hab : (a.isWhitespace && b.isWhitespace) = true
      · rw [if_pos hab]
        exact ih
      · rw [if_neg hab]
        refine List.chain'_cons'.mpr ⟨?_, ih⟩
        intro y hy
        by_cases hbws : b.isWhitespace = true
        · have ha : a.isWhitespace = false := by
            cases haw : a.isWhitespace
            · rfl
            · exact absurd (by simp [haw, hbws]) hab
          rw [if_neg (by simp [ha])]
          intro hcon
          rw [ha] at hcon
          exact Bool.false_ne_true hcon.1
        · have hb : b.isWhitespace = false := Bool.of_not_eq_true hbws
          rw [collapseWs_head_not_ws b rest hb] at hy
          simp only [Option.mem_def, Option.some.injEq] at hy
          subst hy
          intro hcon
          rw [hb] at hcon
          exact Bool.false_ne_true hcon.2

/-- `collapseWs` never grows the text. -/
theorem collapseWs_length_le (s : List Char) : (collapseWs s).length ≤ s.length := by
  induction s with
  | nil => simp [collapseWs]
  | cons a tail ih =>
    cases tail with
    | nil =>
      simp only [collapseWs]
      split <;> simp
    | cons b rest =>
      simp only [collapseWs]
      split
      · exact le_trans ih (by simp)
      · simpa using Nat.succ_le_succ ih

/-- A non-whitespace character survives `collapseWs`. -/
theorem mem_collapseWs_of_not_ws (s : List Char) (c : Char)
    (hws : c.isWhitespace = false) (hc : c ∈ s) : c ∈ collapseWs s := by
  induction s with
  | nil => cases hc
  | cons a tail ih =>
    cases tail with
    | nil =>
      rcases List.mem_cons.mp hc with rfl | hmem
      · simp [collapseWs, hws]
      · cases hmem
    | cons b rest =>
      simp only [collapseWs]
      rcases List.mem_cons.mp hc with rfl | hmem
      · rw [if_neg (by simp [hws]), if_neg (by simp [hws])]
        exact List.mem_cons_self _ _
      · by_cases hab : (a.isWhitespace && b.isWhitespace) = true
        · rw [if_pos hab]
          exact ih hmem
        · rw [if_neg hab]
          exact List.mem_cons_of_mem _ (ih hmem)

/-- Trimming never grows the text. -/
theorem trimChars_length_le (s : List Char) : (trimChars s).length ≤ s.length := by
  simp only [trimChars, List.length_reverse]
  exact le_trans (List.dropWhile_sublist Char.isWhitespace).length_le
    (by simpa using (List.dropWhile_sublist Char.isWhitespace (l := s)).length_le)

/-- Trimming keeps any non-whitespace member, so the result is non-empty. -/
theorem trimChars_ne_nil_of_mem (s : List Char) (c : Char)
    (hws : c.isWhitespace = false) (hc : c ∈ s) : trimChars s ≠ [] := by
  have h1 : c ∈ s.dropWhile Char.isWhitespace := mem_dropWhile_of_not _ _ _ hc hws
  have h2 : c ∈ (s.dropWhile Char.isWhitespace).reverse := List.mem_reverse.mpr h1
  have h3 := mem_dropWhile_of_not Char.isWhitespace _ _ h2 hws
  exact List.ne_nil_of_mem (List.mem_reverse.mpr h3)

/-- A non-empty trim exhibits a non-whitespace character of the input. -/
theorem exists_not_ws_of_trimChars_ne_nil (s : List Char) (h : trimChars s ≠ []) :
    ∃ c ∈ s, c.isWhitespace = false := by
  have hu : s.dropWhile Char.isWhitespace ≠ [] := by
    intro h0
    exact h (by simp [trimChars, h0])
  rcases hu' : s.dropWhile Char.isWhitespace with - | ⟨c, cs⟩
  · exact absurd hu' hu
  · refine ⟨c, ?_, ?_⟩
    · exact (List.dropWhile_sublist Char.isWhitespace).subset
        (hu' ▸ List.mem_cons_self c cs)
    · exact head?_dropWhile_not_prop Char.isWhitespace s c (by rw [hu']; rfl)

/-- Trimmed text never starts with whitespace. -/
theorem trimChars_head_not_ws (s : List Char) :
    ∀ c, (trimChars s).head? = some c → c.isWhitespace = false := by
  intro c hc
  simp only [trimChars, List.head?_reverse] at hc
  have hvne : ((s.dropWhile Char.isWhitespace).reverse.dropWhile Char.isWhitespace) ≠ [] := by
    intro h0
    rw [h0] at hc
    cases hc
  rw [getLast?_dropWhile_of_ne_nil _ _ hvne, List.getLast?_reverse] at hc
  exact head?_dropWhile_not_prop _ _ c hc

/-- Trimmed text never ends with whitespace. -/
theorem trimChars_getLast_not_ws (s : List Char) :
    ∀ c, (trimChars s).getLast? = some c → c.isWhitespace = false := by
  intro c hc
  simp only [trimChars, List.getLast?_reverse] at hc
  exact head?_dropWhile_not_prop _ _ c hc

/-- Every element of the trimmed text is an element of the input. -/
theorem trimChars_subset (s : List Char) : ∀ c ∈ trimChars s, c ∈ s := by
  intro c hc
  simp only [trimChars] at hc
  rw [List.mem_reverse] at hc
  have hc2 := (List.dropWhile_sublist Char.isWhitespace).subset hc
  rw [List.mem_reverse] at hc2
  exact (List.dropWhile_sublist Char.isWhitespace).subset hc2

/-- `Chain'` survives `dropWhile`. -/
theorem chain'_dropWhile {R : α → α → Prop} (p : α → Bool) (l : List α)
    (h : List.Chain' R l) : List.Chain' R (l.dropWhile p) := by
  induction l with
  | nil => simp
  | cons x xs ih =>
    rw [List.dropWhile_cons]
    by_cases hx : p x = true
    · rw [if_pos hx]
      exact ih h.tail
    · rw [if_neg hx]
      exact h

/-- `Chain'` of a symmetric relation survives `reverse`. -/
theorem chain'_reverse_of_symm {R : α → α → Prop} (hsymm : ∀ a b, R a b → R b a)
    (l : List α) (h : List.Chain' R l) : List.Chain' R l.reverse :=
  List.chain'_reverse.mpr (h.imp hsymm)

/-- C9: every chunk returned by `groupNearbyTextChunks` has non-empty text,
text length under 500, width and height above 0.1, only plain single spaces
as whitespace (no runs, no leading/trailing whitespace); and chunks failing
the bounds are silently dropped, so an input token can vanish entirely (here
a 0.05-wide token). -/
theorem groupNearbyTextChunks_output_invariants :
    (∀ (chunks : List LegacyTextChunk) (c : LegacyTextChunk),
        c ∈ groupNearbyTextChunks chunks →
          c.text.data ≠ []
          ∧ c.text.length < 500
          ∧ c.geometry.w > 1/10
          ∧ c.geometry.h > 1/10
          ∧ (∀ ch ∈ c.text.data, ch.isWhitespace = true → ch = ' ')
          ∧ c.text.data.Chain' (fun a b => ¬(a.isWhitespace = true ∧ b.isWhitespace = true))
          ∧ (∀ ch, c.text.data.head? = some ch → ch.isWhitespace = false)
          ∧ (∀ ch, c.text.data.getLast? = some ch → ch.isWhitespace = false))
    ∧ groupNearbyTextChunks [⟨"d", "x", 1, ⟨0, 0, 1/20, 5⟩⟩] = [] := by
  have hsymm : ∀ a b : Char,
      ¬(a.isWhitespace = true ∧ b.isWhitespace = true) →
      ¬(b.isWhitespace = true ∧ a.isWhitespace = true) :=
    fun a b hab hcon => hab ⟨hcon.2, hcon.1⟩
  constructor
  · intro chunks c hc
    cases chunks with
    | nil => simp [groupNearbyTextChunks] at hc
    | cons c0 cs =>
      simp only [groupNearbyTextChunks] at hc
      obtain ⟨g, hgmem, rfl⟩ := List.mem_map.mp hc
      have hkeep := (List.mem_filter.mp hgmem).2
      simp only [keepGroupedChunk, Bool.and_eq_true, decide_eq_true_eq] at hkeep
      obtain ⟨⟨hwh, htrim⟩, hlen⟩ := hkeep
      have hne0 : trimChars g.text.data ≠ [] := by
        intro h0
        rw [h0] at htrim
        simp at htrim
      obtain ⟨d, hdmem, hdws⟩ := exists_not_ws_of_trimChars_ne_nil _ hne0
      have hdcol : d ∈ collapseWs g.text.data := mem_collapseWs_of_not_ws _ _ hdws hdmem
      refine ⟨?_, ?_, hwh.1, hwh.2, ?_, ?_, ?_, ?_⟩
      · exact trimChars_ne_nil_of_mem _ _ hdws hdcol
      · exact lt_of_le_of_lt
          (le_trans (trimChars_length_le _) (collapseWs_length_le _)) hlen
      · intro ch hch hw
        exact collapseWs_ws_eq_space _ ch (trimChars_subset _ ch hch) hw
      · exact chain'_reverse_of_symm hsymm _
          (chain'_dropWhile _ _
            (chain'_reverse_of_symm hsymm _
              (chain'_dropWhile _ _ (collapseWs_chain g.text.data))))
      · exact fun ch hch => trimChars_head_not_ws _ ch hch
      · exact fun ch hch => trimChars_getLast_not_ws _ ch hch
  · with_unfolding_all rfl

/-- C9 witness: a well-formed token survives the clustering and its output
text is non-empty. -/
theorem groupNearbyTextChunks_output_invariants_witness :
    (⟨"w1", "Hi", 1, ⟨0, 0, 5, 5⟩⟩ : LegacyTextChunk)
        ∈ groupNearbyTextChunks [⟨"w1", "Hi", 1, ⟨0, 0, 5, 5⟩⟩]
    ∧ (⟨"w1", "Hi", 1, ⟨0, 0, 5, 5⟩⟩ : LegacyTextChunk).text.data ≠ [] := by
  have hm : (⟨"w1", "Hi", 1, ⟨0, 0, 5, 5⟩⟩ : LegacyTextChunk)
      ∈ groupNearbyTextChunks [⟨"w1", "Hi", 1, ⟨0, 0, 5, 5⟩⟩] := by
    rw [show groupNearbyTextChunks [(⟨"w1", "Hi", 1, ⟨0, 0, 5, 5⟩⟩ : LegacyTextChunk)]
        = [⟨"w1", "Hi", 1, ⟨0, 0, 5, 5⟩⟩] from by with_unfolding_all rfl]
    exact List.mem_cons_self _ _
  exact ⟨hm, (groupNearbyTextChunks_output_invariants.1 _ _ hm).1⟩
